import Mathlib

/-!
Verification development for the `updater` program: a shallow embedding of
`src/updater/src/main.rs`, `src/updater/src/adoptium.rs` and
`src/updater/src/semeru.rs`, together with theorems settling the frozen
claims about the program.

Conventions of the embedding:
* Rust `usize`/`u64` are embedded as `Nat` (only comparisons and string
  formatting are performed on them in the source, so no overflow is
  observable).
* Rust `String` ordering is byte-lexicographic; on UTF-8 this coincides
  with code-point-lexicographic order, embedded here as `cmpStr`.
* The HTTP transport is out of scope (per the specification); functions
  that mix transport and logic are embedded on the already-received data,
  and orchestration functions take the fetching collaborator as an
  explicit oracle argument.
-/

/-! Concrete fixtures used by witnesses and counterexamples. -/

/-! Claim theorems. -/

namespace Updater

deriving instance DecidableEq for Except

/-- Three-way comparison of naturals: the embedding of Rust's (total)
`partial_cmp`/`cmp` on `usize`/`u64`. -/
def cmpNat (a b : Nat) : Ordering :=
  if a < b then .lt else if b < a then .gt else .eq

/-- Three-way comparison of characters by code point (Rust compares
strings byte-wise; on UTF-8 this is code-point order). -/
def cmpChar (a b : Char) : Ordering := cmpNat a.toNat b.toNat

/-- Lexicographic three-way comparison of character lists. -/
def cmpList : List Char → List Char → Ordering
  | [], [] => .eq
  | [], _ :: _ => .lt
  | _ :: _, [] => .gt
  | a :: as, b :: bs => (cmpChar a b).then (cmpList as bs)

/-- Embedding of Rust `String::cmp` (lexicographic). -/
def cmpStr (a b : String) : Ordering := cmpList a.data b.data

/-- A three-way comparator that is reflexive-equal exactly on equal
arguments, antisymmetric under `Ordering.swap`, and transitive on `lt`. -/
def StrictCmp {α : Type} (cmp : α → α → Ordering) : Prop :=
  (∀ a b, cmp a b = .eq ↔ a = b) ∧
  (∀ a b, (cmp a b).swap = cmp b a) ∧
  (∀ a b c, cmp a b = .lt → cmp b c = .lt → cmp a c = .lt)

/-- Lexicographic composition of comparators on a product. -/
def cmpProd {α β : Type} (f : α → α → Ordering) (g : β → β → Ordering) :
    α × β → α × β → Ordering :=
  fun x y => (f x.1 y.1).then (g x.2 y.2)

/-- Splitting a character list on `'-'`, the embedding of Rust
`str::split('-')` (collected to a vector): always yields at least one
segment, and adjacent separators yield empty segments. -/
def splitDash : List Char → List (List Char)
  | [] => [[]]
  | c :: rest =>
    match splitDash rest with
    | [] => [[]]
    | seg :: segs =>
      if c = '-' then [] :: seg :: segs else (c :: seg) :: segs

/-- The last hyphen-delimited segment of a string: the embedding of
`s.split('-')` followed by indexing the last element (`x[x.len() - 1]`);
the split is never empty, so the `""` default is never used. -/
def lastSegment (s : String) : String :=
  String.mk ((splitDash s.data).getLastD [])

/-- Embedding of main.rs `struct Release` (`usize` fields as `Nat`). -/
structure Release where
  build : Nat
  major : Nat
  minor : Nat
  openjdk_version : String
  security : Nat
  semver : String

deriving DecidableEq, Repr

/-- Embedding of main.rs `impl PartialOrd for Release`: the source chains
`partial_cmp` on build, major, minor, `openjdk_version`, security (each of
which is total, so each early return carries `some`), and then re-compares
`openjdk_version`, tie-breaking on the last hyphen-delimited segments. -/
def releaseCmpOpt (a b : Release) : Option Ordering :=
  match cmpNat a.build b.build with
  | .eq =>
    match cmpNat a.major b.major with
    | .eq =>
      match cmpNat a.minor b.minor with
      | .eq =>
        match cmpStr a.openjdk_version b.openjdk_version with
        | .eq =>
          match cmpNat a.security b.security with
          | .eq =>
            match cmpStr a.openjdk_version b.openjdk_version with
            | .eq => some .eq
            | _ =>
              some (cmpStr (lastSegment a.openjdk_version)
                (lastSegment b.openjdk_version))
          | ord => some ord
        | ord => some ord
      | ord => some ord
    | ord => some ord
  | ord => some ord

/-- Embedding of main.rs `impl Ord for Release`
(`self.partial_cmp(other).unwrap()`); the default is never used because
`releaseCmpOpt` always returns `some` (see `releaseCmpOpt_eq_lex`). -/
def releaseCmp (a b : Release) : Ordering :=
  (releaseCmpOpt a b).getD .eq

/-- Rust `version > entry.0` on `Release` values, i.e.
`partial_cmp == Some(Greater)`. -/
def releaseGtB (a b : Release) : Bool :=
  releaseCmpOpt a b == some .gt

/-- Plain lexicographic comparison of the tuple
(build, major, minor, openjdk_version, security), as claim C10 words it. -/
def releaseLex (a b : Release) : Ordering :=
  (cmpNat a.build b.build).then
    ((cmpNat a.major b.major).then
      ((cmpNat a.minor b.minor).then
        ((cmpStr a.openjdk_version b.openjdk_version).then
          (cmpNat a.security b.security))))

/-- The sort key of the legacy comparator, as a nested tuple. -/
def releaseKey (a : Release) : Nat × Nat × Nat × String × Nat :=
  (a.build, a.major, a.minor, a.openjdk_version, a.security)

/-- Lexicographic comparator on legacy sort keys. -/
def cmpReleaseKey : Nat × Nat × Nat × String × Nat → Nat × Nat × Nat × String × Nat → Ordering :=
  cmpProd cmpNat (cmpProd cmpNat (cmpProd cmpNat (cmpProd cmpStr cmpNat)))

/-- Embedding of adoptium.rs `struct VersionData` (`u64` fields as `Nat`). -/
structure VersionData where
  build : Nat
  major : Nat
  minor : Nat
  openjdk_version : String
  security : Nat
  semver : String

deriving DecidableEq, Repr

/-- Embedding of adoptium.rs `impl PartialOrd for VersionData`: chains
`partial_cmp` on major, minor, security and finally returns the comparison
of the builds; no further tie-break exists. -/
def versionDataCmpOpt (a b : VersionData) : Option Ordering :=
  match cmpNat a.major b.major with
  | .eq =>
    match cmpNat a.minor b.minor with
    | .eq =>
      match cmpNat a.security b.security with
      | .eq => some (cmpNat a.build b.build)
      | ord => some ord
    | ord => some ord
  | ord => some ord

/-- Embedding of adoptium.rs `impl Ord for VersionData`
(`self.partial_cmp(other).unwrap()`); the default is never used because
`versionDataCmpOpt` always returns `some` (see `versionDataCmpOpt_eq_lex`). -/
def versionDataCmp (a b : VersionData) : Ordering :=
  (versionDataCmpOpt a b).getD .eq

/-- Plain lexicographic comparison of (major, minor, security, build). -/
def versionDataLex (a b : VersionData) : Ordering :=
  (cmpNat a.major b.major).then
    ((cmpNat a.minor b.minor).then
      ((cmpNat a.security b.security).then (cmpNat a.build b.build)))

/-- The numeric sort key of the vendor comparator, as a nested tuple. -/
def versionDataKey (a : VersionData) : Nat × Nat × Nat × Nat :=
  (a.major, a.minor, a.security, a.build)

/-- Lexicographic comparator on vendor sort keys. -/
def cmpVersionDataKey : Nat × Nat × Nat × Nat → Nat × Nat × Nat × Nat → Ordering :=
  cmpProd cmpNat (cmpProd cmpNat (cmpProd cmpNat cmpNat))

/-- Errors: the embedding of the `eyre` report used by the source; a base
message (`eyre!`/`bail!`/`context` on a transport error) possibly wrapped
in further context layers (`with_context`). -/
inductive Err where
  | msg : String → Err
  | context : String → Err → Err

deriving DecidableEq, Repr

/-- Embedding of adoptium.rs `struct Package`. -/
structure Package where
  checksum : String
  checksum_link : String
  download_count : Nat
  link : String
  metadata_link : String
  name : String
  size : Nat

deriving DecidableEq, Repr

/-- Embedding of adoptium.rs `struct Binary`. -/
structure Binary where
  architecture : String
  download_count : Nat
  heap_size : String
  image_type : String
  jvm_impl : String
  os : String
  package : Package
  project : String
  scm_ref : String
  updated_at : String

deriving DecidableEq, Repr

/-- Embedding of adoptium.rs `struct Source` (release source archive);
named apart from the main.rs `Source` output struct. -/
structure UpstreamSource where
  link : String
  name : String
  size : Nat

deriving DecidableEq, Repr

/-- Embedding of adoptium.rs `struct Release` (a vendor release with its
binaries); named `VendorRelease` because main.rs also has a `Release`. -/
structure VendorRelease where
  binaries : List Binary
  download_count : Nat
  id : String
  release_link : String
  release_type : String
  source : Option UpstreamSource
  timestamp : String
  updated_at : String
  vendor : String
  version_data : VersionData

deriving DecidableEq, Repr

/-- Embedding of adoptium.rs `impl Ord for Release`: delegate to the
comparison of the `version_data` fields, as a boolean `≤` for sorting. -/
def vendorReleaseLe (a b : VendorRelease) : Bool :=
  match versionDataCmp a.version_data b.version_data with
  | .gt => false
  | _ => true

/-- Insert into a sorted list, before the first element that is `≥`;
together with `stableSort` this embeds Rust `Vec::sort`, which is a
stable sort (equal elements keep their original relative order). -/
def insertSorted {α : Type} (le : α → α → Bool) (x : α) : List α → List α
  | [] => [x]
  | y :: ys => if le x y then x :: y :: ys else y :: insertSorted le x ys

/-- Stable insertion sort: the embedding of Rust `Vec::sort`. -/
def stableSort {α : Type} (le : α → α → Bool) : List α → List α
  | [] => []
  | x :: xs => insertSorted le x (stableSort le xs)

/-- Embedding of adoptium.rs `get_release` after the transport: the page of
releases received for `(version, release_type)` is sorted (Rust
`Vec::sort`, sorting by `version_data`) and the last element is popped;
an empty page is an error. -/
def adoptiumGetRelease (page : List VendorRelease) : Except Err VendorRelease :=
  match (stableSort vendorReleaseLe page).getLast? with
  | some release => .ok release
  | none => .error (.msg "Adoptium endpoint did not return any valid releases")

/-- Embedding of semeru.rs `get_release` after the transport: identical to
the adoptium one except for the error message. -/
def semeruGetRelease (page : List VendorRelease) : Except Err VendorRelease :=
  match (stableSort vendorReleaseLe page).getLast? with
  | some release => .ok release
  | none => .error (.msg "Semeru endpoint did not return any valid releases")

/-- Embedding of adoptium.rs `struct AvailableReleases` (shared by
semeru.rs). -/
structure AvailableReleases where
  available_lts_releases : List Nat
  available_releases : List Nat
  most_recent_feature_release : Nat
  most_recent_feature_version : Nat
  tip_version : Nat

deriving DecidableEq, Repr

/-- Key lookup in an association list; embeds `HashMap`/`BTreeMap` `get`. -/
def lookupA {κ α : Type} [DecidableEq κ] : List (κ × α) → κ → Option α
  | [], _ => none
  | (k', v) :: rest, k => if k' = k then some v else lookupA rest k

/-- Key insert (replace-or-append) in an association list; embeds
`HashMap`/`BTreeMap` `insert`. -/
def insertA {κ α : Type} [DecidableEq κ] : List (κ × α) → κ → α → List (κ × α)
  | [], k, v => [(k, v)]
  | (k', v') :: rest, k, v =>
    if k' = k then (k, v) :: rest else (k', v') :: insertA rest k v

/-- Key membership in an association list; embeds `contains_key`. -/
def containsA {κ α : Type} [DecidableEq κ] (m : List (κ × α)) (k : κ) : Bool :=
  (lookupA m k).isSome

/-- The GA loop shared by adoptium.rs and semeru.rs `get_releases`: for
every version in the summary's `available_releases`, fetch the best GA
candidate (the fetch collaborator stands for `get_release(client, v, t)`),
inserting successes into the accumulated map and stopping at the first
failure, which is returned together with the offending version (the
caller attaches its vendor-specific context message).  The second result
component is the trace of `(version, release_type)` fetch calls issued;
it is instrumentation only and does not influence the result. -/
def gaLoop (fetch : Nat → String → Except Err VendorRelease) :
    List Nat → List (Nat × VendorRelease) → List (Nat × String) →
    Except (Nat × Err) (List (Nat × VendorRelease)) × List (Nat × String)
  | [], out, tr => (.ok out, tr)
  | v :: rest, out, tr =>
    match fetch v "ga" with
    | .ok release => gaLoop fetch rest (insertA out v release) (tr ++ [(v, "ga")])
    | .error e => (.error (v, e), tr ++ [(v, "ga")])

/-- Context message main.rs attaches to a failed adoptium GA fetch. -/
def adoptiumGaMsg (v : Nat) : String :=
  "Failed to get version " ++ toString v ++ " from the adoptium archive"

/-- Context message attached to a failed adoptium EA fetch. -/
def adoptiumEaMsg (v : Nat) : String :=
  "Failed to get version " ++ toString v ++ " (latest) from the adoptium archive"

/-- Context message attached to a failed semeru GA fetch. -/
def semeruGaMsg (v : Nat) : String :=
  "Failed to get version " ++ toString v ++ " from the semeru archive"

/-- Embedding of adoptium.rs `get_releases` given the already-fetched
summary and the per-(version, type) best-candidate fetcher: resolve every
summary version via GA (any failure is propagated with the version in its
context), then, if the most recent feature version is not already a key
of the map, attempt an EA fetch for it, whose failure is also propagated.
The trace of fetch calls is returned alongside. -/
def adoptiumGetReleases (available : AvailableReleases)
    (fetch : Nat → String → Except Err VendorRelease) :
    Except Err (List (Nat × VendorRelease)) × List (Nat × String) :=
  match gaLoop fetch available.available_releases [] [] with
  | (.error (v, e), tr) => (.error (.context (adoptiumGaMsg v) e), tr)
  | (.ok out, tr) =>
    if containsA out available.most_recent_feature_version then (.ok out, tr)
    else
      match fetch available.most_recent_feature_version "ea" with
      | .ok release =>
          (.ok (insertA out available.most_recent_feature_version release),
            tr ++ [(available.most_recent_feature_version, "ea")])
      | .error e =>
          (.error (.context (adoptiumEaMsg available.most_recent_feature_version) e),
            tr ++ [(available.most_recent_feature_version, "ea")])

/-- Embedding of semeru.rs `get_releases`: as the adoptium one, except
that a failed EA fetch is only logged (`eprintln!`) and the map built so
far is returned without that entry. -/
def semeruGetReleases (available : AvailableReleases)
    (fetch : Nat → String → Except Err VendorRelease) :
    Except Err (List (Nat × VendorRelease)) × List (Nat × String) :=
  match gaLoop fetch available.available_releases [] [] with
  | (.error (v, e), tr) => (.error (.context (semeruGaMsg v) e), tr)
  | (.ok out, tr) =>
    if containsA out available.most_recent_feature_version then (.ok out, tr)
    else
      match fetch available.most_recent_feature_version "ea" with
      | .ok release =>
          (.ok (insertA out available.most_recent_feature_version release),
            tr ++ [(available.most_recent_feature_version, "ea")])
      | .error _ =>
          (.ok out, tr ++ [(available.most_recent_feature_version, "ea")])

/-- Embedding of main.rs `Release::to_slug`: `"1.{major}.{minor}"`. -/
def toSlug (r : Release) : String :=
  "1." ++ toString r.major ++ "." ++ toString r.minor

/-- Embedding of main.rs `Release::to_java_version`:
`"{major}.{minor}.{security}+{build}"`. -/
def toJavaVersion (r : Release) : String :=
  toString r.major ++ "." ++ toString r.minor ++ "." ++ toString r.security
    ++ "+" ++ toString r.build

/-- Embedding of main.rs `struct Source` (serialized catalog entry). -/
structure Source where
  major_version : String
  version : String
  url : String

deriving DecidableEq, Repr

/-- Embedding of main.rs `struct Sources` (the per-platform map from major
version to catalog entry). -/
structure Sources where
  versions : List (String × Source)

deriving DecidableEq, Repr

/-- Embedding of main.rs `Sources::add_release`: key the entry by the
release's major version alone. -/
def addRelease (s : Sources) (release : Release) (url : String) : Sources :=
  let version := toJavaVersion release
  let source : Source :=
    { major_version := toString release.major, version := version, url := url }
  { versions := insertA s.versions (toString release.major) source }

/-- Embedding of main.rs serde types for the assets response. -/
structure PackageInfo where
  link : String
  name : String

deriving DecidableEq, Repr

/-- Embedding of main.rs `struct BinaryInfo`. -/
structure BinaryInfo where
  package : PackageInfo

deriving DecidableEq, Repr

/-- Embedding of main.rs `struct VersionInfo`. -/
structure VersionInfo where
  binaries : List BinaryInfo

deriving DecidableEq, Repr

/-- Embedding of main.rs `get_url` after the transport: from the received
response, take the first `VersionInfo` (`into_iter().next()`, an error if
there is none), then the first of its binaries (`binaries.get(0)`, an
error if there is none) and return its package link. -/
def getUrlFromResponse (response : List VersionInfo) : Except Err String :=
  match response.head? with
  | none => .error (.msg "Nothing providred")
  | some version_info =>
    match version_info.binaries.head? with
    | some binary_info => .ok binary_info.package.link
    | none => .error (.msg "Binary was missing!")

/-- The slug-deduplication loop of main.rs `main`: iterate the fetched
versions (in the iteration order of the `HashSet`, made explicit as the
input list order), skip a version whose URL lookup fails (`if let Ok`),
and otherwise enter it into the slug map, replacing the existing entry
for the same slug exactly when the new release is strictly greater
(`version > entry.0`).  New slugs are appended, modelling the map's
iteration order as insertion order. -/
def buildSlugs (getUrl : Release → Except Err String) :
    List Release → List (String × Release × String) → List (String × Release × String)
  | [], slugs => slugs
  | version :: rest, slugs =>
    match getUrl version with
    | .error _ => buildSlugs getUrl rest slugs
    | .ok url =>
      let slug := toSlug version
      match lookupA slugs slug with
      | none => buildSlugs getUrl rest (slugs ++ [(slug, version, url)])
      | some (entryRelease, _entryUrl) =>
        if releaseGtB version entryRelease then
          buildSlugs getUrl rest (insertA slugs slug (version, url))
        else buildSlugs getUrl rest slugs

/-- Embedding of main.rs `main` after the transport (`get_all_versions`
delivers `versions`, in `HashSet` iteration order; `get_url` is the URL
lookup collaborator): deduplicate by slug, then fold the slug map into
the per-major `Sources` map and key the result by the fixed platform
triple. -/
def legacyMain (getUrl : Release → Except Err String) (versions : List Release) :
    List (String × Sources) :=
  let slugs := buildSlugs getUrl versions []
  let sources := slugs.foldl (fun acc p => addRelease acc p.2.1 p.2.2) ⟨[]⟩
  [("x86_64-unknown-linux-gnu", sources)]

/-- The VersionOrdering algorithm exactly as the specification words it
(spec §4.1, quoted by claim C1), over a vendor version key: compare
major, then minor, then security, then build, numerically; if all four
are equal, split the raw qualifier/version string on `-`, take the last
segment of each, and compare those segments as strings.  This definition
follows the spec's words, for comparison against the source comparators. -/
def specVersionCmp (a b : VersionData) : Ordering :=
  (cmpNat a.major b.major).then
    ((cmpNat a.minor b.minor).then
      ((cmpNat a.security b.security).then
        ((cmpNat a.build b.build).then
          (cmpStr (lastSegment a.openjdk_version) (lastSegment b.openjdk_version)))))

/-- The same spec-worded VersionOrdering over a legacy (main.rs) release
key. -/
def specReleaseCmp (a b : Release) : Ordering :=
  (cmpNat a.major b.major).then
    ((cmpNat a.minor b.minor).then
      ((cmpNat a.security b.security).then
        ((cmpNat a.build b.build).then
          (cmpStr (lastSegment a.openjdk_version) (lastSegment b.openjdk_version)))))

/-- Modelled from the spec: `ResolvedRelease` (spec §3); the catalog
assembler that builds it is code of this repository that is not under
`src/` (only its collaborators `adoptium.rs`/`semeru.rs` are), so its
data model is taken from the spec's words: download link, feature-version
number, full version string, early-access flag, content hash. -/
structure ResolvedRelease where
  link : String
  major_version : Nat
  version : String
  early_access : Bool
  sha256 : String

deriving DecidableEq, Repr

/-- Modelled from the spec: `PublishedCatalog` (spec §3): a versions map
keyed by slug plus the `latest`, `stable` and `lts` pointer fields. -/
structure PublishedCatalog where
  versions : List (String × ResolvedRelease)
  latest : ResolvedRelease
  stable : ResolvedRelease
  lts : ResolvedRelease

deriving DecidableEq, Repr

/-- Modelled from the spec: the error taxonomy entry `MissingPointerError`
(spec §7) raised by the assembler when a pointer target is absent. -/
inductive AssembleErr where
  | missingPointer : String → AssembleErr

deriving DecidableEq, Repr

/-- The highest LTS-flagged feature version of a summary (spec §3:
"`lts` = resolution of the highest LTS-flagged feature-version"). -/
def maxLts (summary : AvailableReleases) : Nat :=
  summary.available_lts_releases.foldr Nat.max 0

/-- Modelled from the spec: the `CatalogAssembler` (spec §4.4), which is
missing from `src/`: key every resolved release by the slug
`"jdk" ++ version`, then look up the `latest` pointer at the summary's
most-recent feature-version, the `stable` pointer at its most-recent
feature-release and the `lts` pointer at the highest LTS-flagged version;
failing to find any of the three is a `MissingPointerError` and no
catalog is emitted.  (Content hashes are attached to the entries before
assembly; the hashing collaborator is out of scope.) -/
def assemble (catalog : List (Nat × ResolvedRelease)) (summary : AvailableReleases) :
    Except AssembleErr PublishedCatalog :=
  let versions := catalog.map (fun p => ("jdk" ++ toString p.1, p.2))
  match lookupA catalog summary.most_recent_feature_version with
  | none => .error (.missingPointer "latest")
  | some latest =>
    match lookupA catalog summary.most_recent_feature_release with
    | none => .error (.missingPointer "stable")
    | some stable =>
      match lookupA catalog (maxLts summary) with
      | none => .error (.missingPointer "lts")
      | some lts =>
        .ok { versions := versions, latest := latest, stable := stable, lts := lts }

/-- Whether an assembly outcome is a `MissingPointerError`. -/
def isMissingPointer (r : Except AssembleErr PublishedCatalog) : Bool :=
  match r with
  | .error (.missingPointer _) => true
  | _ => false

/-- A legacy release with build 2 but major 1. -/
def relBuild2Major1 : Release :=
  { build := 2, major := 1, minor := 0, openjdk_version := "a", security := 0, semver := "" }

/-- A legacy release with build 1 but major 2. -/
def relBuild1Major2 : Release :=
  { build := 1, major := 2, minor := 0, openjdk_version := "a", security := 0, semver := "" }

/-- A vendor version key 17.0.1+9 with no qualifier. -/
def vdPlain : VersionData :=
  { build := 9, major := 17, minor := 0, openjdk_version := "17.0.1+9",
    security := 1, semver := "17.0.1+9" }

/-- A vendor version key 17.0.1+9-beta: the same four numeric components
as `vdPlain` but a different qualifier. -/
def vdBeta : VersionData :=
  { build := 9, major := 17, minor := 0, openjdk_version := "17.0.1+9-beta",
    security := 1, semver := "17.0.1+9-beta" }

/-- A vendor release carrying `vdPlain`. -/
def vrPlain : VendorRelease :=
  { binaries := [], download_count := 0, id := "p", release_link := "",
    release_type := "ga", source := none, timestamp := "", updated_at := "",
    vendor := "eclipse", version_data := vdPlain }

/-- A vendor release carrying `vdBeta`. -/
def vrBeta : VendorRelease :=
  { binaries := [], download_count := 0, id := "b", release_link := "",
    release_type := "ea", source := none, timestamp := "", updated_at := "",
    vendor := "eclipse", version_data := vdBeta }

/-- A legacy release on slug 1.17.0 with security 1 and build 10. -/
def relSec1Build10 : Release :=
  { build := 10, major := 17, minor := 0, openjdk_version := "17.0.1+10",
    security := 1, semver := "" }

/-- A legacy release on slug 1.17.0 with security 2 and build 9. -/
def relSec2Build9 : Release :=
  { build := 9, major := 17, minor := 0, openjdk_version := "17.0.2+9",
    security := 2, semver := "" }

/-- A legacy release on slug 1.17.0, major 17. -/
def relMinor0 : Release :=
  { build := 1, major := 17, minor := 0, openjdk_version := "17.0.0+1",
    security := 0, semver := "" }

/-- A legacy release on slug 1.17.1, also major 17. -/
def relMinor1 : Release :=
  { build := 1, major := 17, minor := 1, openjdk_version := "17.1.0+1",
    security := 0, semver := "" }

/-- A legacy release on slug 1.17.0 with build 9. -/
def relBuild9 : Release :=
  { build := 9, major := 17, minor := 0, openjdk_version := "17.0.1+9",
    security := 1, semver := "" }

/-- A legacy release on slug 1.17.0 with build 10, otherwise like
`relBuild9`. -/
def relBuild10 : Release :=
  { build := 10, major := 17, minor := 0, openjdk_version := "17.0.1+10",
    security := 1, semver := "" }

/-- A URL collaborator that succeeds with a constant URL. -/
def urlOk : Release → Except Err String := fun _ => .ok "u"

/-- A URL collaborator that fails for `relMinor1` and succeeds otherwise. -/
def urlSkips : Release → Except Err String := fun r =>
  if r = relMinor1 then .error (.msg "404") else .ok "u1"

/-- A summary whose most recent feature version (21) is not among the
available releases ([17]). -/
def availEaGap : AvailableReleases :=
  { available_lts_releases := [17], available_releases := [17],
    most_recent_feature_release := 17, most_recent_feature_version := 21,
    tip_version := 22 }

/-- A fetcher that answers GA requests with `vrPlain` and fails EA ones. -/
def fetchGaOnly : Nat → String → Except Err VendorRelease := fun _ t =>
  if t = "ga" then .ok vrPlain else .error (.msg "no ea build")

/-- A fetcher that always fails. -/
def fetchDown : Nat → String → Except Err VendorRelease := fun _ _ =>
  .error (.msg "down")

/-- A resolved release for the assembler fixtures. -/
def rrW : ResolvedRelease :=
  { link := "https://example/jdk17.tar.gz", major_version := 17,
    version := "17.0.1+9", early_access := false, sha256 := "cafe" }

/-- A summary whose pointers all target feature version 17. -/
def summaryAll17 : AvailableReleases :=
  { available_lts_releases := [17], available_releases := [17],
    most_recent_feature_release := 17, most_recent_feature_version := 17,
    tip_version := 17 }

/-! Theorems. -/

theorem then_eq_eq {o₁ o₂ : Ordering} : o₁.then o₂ = .eq ↔ o₁ = .eq ∧ o₂ = .eq := by
  cases o₁ <;> simp [Ordering.then]

theorem then_eq_lt {o₁ o₂ : Ordering} : o₁.then o₂ = .lt ↔ o₁ = .lt ∨ (o₁ = .eq ∧ o₂ = .lt) := by
  cases o₁ <;> simp [Ordering.then]

theorem then_eq_gt {o₁ o₂ : Ordering} : o₁.then o₂ = .gt ↔ o₁ = .gt ∨ (o₁ = .eq ∧ o₂ = .gt) := by
  cases o₁ <;> simp [Ordering.then]

theorem then_swap {o₁ o₂ : Ordering} : (o₁.then o₂).swap = o₁.swap.then o₂.swap := by
  cases o₁ <;> cases o₂ <;> rfl

theorem strict_cmpNat : StrictCmp cmpNat := by
  refine ⟨fun a b => ?_, fun a b => ?_, fun a b c h₁ h₂ => ?_⟩
  · unfold cmpNat; split_ifs <;> (simp; omega)
  · unfold cmpNat
    split_ifs <;> (first | (simp [Ordering.swap]; omega) | simp [Ordering.swap])
  · unfold cmpNat at h₁ h₂ ⊢
    split_ifs at h₁ h₂ ⊢ <;> simp_all <;> omega

theorem strict_cmpChar : StrictCmp cmpChar := by
  obtain ⟨he, hs, ht⟩ := strict_cmpNat
  refine ⟨fun a b => ?_, fun a b => hs _ _, fun a b c h₁ h₂ => ht _ _ _ h₁ h₂⟩
  rw [cmpChar, he]
  constructor
  · intro h
    cases a with
    | mk v hv =>
      cases b with
      | mk w hw =>
        simp only [Char.toNat] at h
        congr 1
        exact UInt32.toNat.inj h
  · intro h; rw [h]

theorem strict_cmpList : StrictCmp cmpList := by
  obtain ⟨ce, cs, ct⟩ := strict_cmpChar
  refine ⟨?_, ?_, ?_⟩
  · intro a
    induction a with
    | nil => intro b; cases b <;> simp [cmpList]
    | cons x xs ih =>
      intro b
      cases b with
      | nil => simp [cmpList]
      | cons y ys =>
        simp only [cmpList, then_eq_eq, ce, ih, List.cons.injEq]
  · intro a
    induction a with
    | nil => intro b; cases b <;> simp [cmpList, Ordering.swap]
    | cons x xs ih =>
      intro b
      cases b with
      | nil => simp [cmpList, Ordering.swap]
      | cons y ys =>
        simp only [cmpList, then_swap, cs, ih]
  · intro a
    induction a with
    | nil =>
      intro b c h₁ h₂
      cases b with
      | nil => exact h₂
      | cons y ys =>
        cases c with
        | nil => simp [cmpList] at h₂
        | cons z zs => simp [cmpList]
    | cons x xs ih =>
      intro b c h₁ h₂
      cases b with
      | nil => simp [cmpList] at h₁
      | cons y ys =>
        cases c with
        | nil => simp [cmpList] at h₂
        | cons z zs =>
          simp only [cmpList, then_eq_lt, ce, List.cons.injEq] at h₁ h₂ ⊢
          rcases h₁ with h₁ | ⟨hxy, h₁⟩
          · rcases h₂ with h₂ | ⟨hyz, h₂⟩
            · exact Or.inl (ct _ _ _ h₁ h₂)
            · subst hyz; exact Or.inl h₁
          · subst hxy
            rcases h₂ with h₂ | ⟨hyz, h₂⟩
            · exact Or.inl h₂
            · subst hyz; exact Or.inr ⟨rfl, ih _ _ h₁ h₂⟩

theorem strict_cmpStr : StrictCmp cmpStr := by
  obtain ⟨le, ls, lt⟩ := strict_cmpList
  refine ⟨fun a b => ?_, fun a b => ls _ _, fun a b c h₁ h₂ => lt _ _ _ h₁ h₂⟩
  rw [cmpStr, le]
  constructor
  · intro h; cases a; cases b; exact congrArg String.mk h
  · intro h; rw [h]

theorem strict_cmpProd {α β : Type} {f : α → α → Ordering} {g : β → β → Ordering}
    (hf : StrictCmp f) (hg : StrictCmp g) : StrictCmp (cmpProd f g) := by
  obtain ⟨fe, fs, ft⟩ := hf
  obtain ⟨ge, gs, gt⟩ := hg
  refine ⟨fun a b => ?_, fun a b => ?_, fun a b c h₁ h₂ => ?_⟩
  · simp only [cmpProd, then_eq_eq, fe, ge, Prod.ext_iff]
  · simp only [cmpProd, then_swap, fs, gs]
  · simp only [cmpProd, then_eq_lt, fe] at h₁ h₂ ⊢
    rcases h₁ with h₁ | ⟨h₁, h₁'⟩
    · rcases h₂ with h₂ | ⟨h₂, h₂'⟩
      · exact Or.inl (ft _ _ _ h₁ h₂)
      · rw [← h₂]; exact Or.inl h₁
    · rw [h₁]
      rcases h₂ with h₂ | ⟨h₂, h₂'⟩
      · exact Or.inl h₂
      · exact Or.inr ⟨h₂, gt _ _ _ h₁' h₂'⟩

/-- The legacy comparator always returns `some` of the plain lexicographic
comparison: the hyphen-split tie-break branch is unreachable because it is
guarded by the earlier `openjdk_version` comparison having been `Equal`. -/
theorem releaseCmpOpt_eq_lex (a b : Release) :
    releaseCmpOpt a b = some (releaseLex a b) := by
  unfold releaseCmpOpt releaseLex
  cases cmpNat a.build b.build <;>
    cases cmpNat a.major b.major <;>
      cases cmpNat a.minor b.minor <;>
        cases h : cmpStr a.openjdk_version b.openjdk_version <;>
          cases cmpNat a.security b.security <;>
            simp [Ordering.then, h]

theorem releaseLex_eq_key (a b : Release) :
    releaseLex a b = cmpReleaseKey (releaseKey a) (releaseKey b) := rfl

theorem strict_cmpReleaseKey : StrictCmp cmpReleaseKey :=
  strict_cmpProd strict_cmpNat
    (strict_cmpProd strict_cmpNat
      (strict_cmpProd strict_cmpNat (strict_cmpProd strict_cmpStr strict_cmpNat)))

theorem versionDataCmpOpt_eq_lex (a b : VersionData) :
    versionDataCmpOpt a b = some (versionDataLex a b) := by
  unfold versionDataCmpOpt versionDataLex
  cases cmpNat a.major b.major <;>
    cases cmpNat a.minor b.minor <;>
      cases cmpNat a.security b.security <;>
        simp [Ordering.then]

theorem versionDataCmp_eq_lex (a b : VersionData) :
    versionDataCmp a b = versionDataLex a b := by
  rw [versionDataCmp, versionDataCmpOpt_eq_lex]
  rfl

theorem versionDataLex_eq_key (a b : VersionData) :
    versionDataLex a b = cmpVersionDataKey (versionDataKey a) (versionDataKey b) := rfl

theorem strict_cmpVersionDataKey : StrictCmp cmpVersionDataKey :=
  strict_cmpProd strict_cmpNat
    (strict_cmpProd strict_cmpNat (strict_cmpProd strict_cmpNat strict_cmpNat))

theorem insertSorted_perm {α : Type} (le : α → α → Bool) (x : α) (l : List α) :
    (insertSorted le x l).Perm (x :: l) := by
  induction l with
  | nil => simp [insertSorted]
  | cons y ys ih =>
    rw [insertSorted]
    split_ifs
    · exact List.Perm.refl _
    · exact (List.Perm.cons y ih).trans (List.Perm.swap x y ys)

theorem stableSort_perm {α : Type} (le : α → α → Bool) (l : List α) :
    (stableSort le l).Perm l := by
  induction l with
  | nil => simp [stableSort]
  | cons x xs ih =>
    exact (insertSorted_perm le x (stableSort le xs)).trans (List.Perm.cons x ih)

theorem insertSorted_pairwise {α : Type} (le : α → α → Bool)
    (htot : ∀ a b, le a b = true ∨ le b a = true)
    (htrans : ∀ a b c, le a b = true → le b c = true → le a c = true)
    (x : α) (l : List α)
    (hl : l.Pairwise (fun a b => le a b = true)) :
    (insertSorted le x l).Pairwise (fun a b => le a b = true) := by
  induction l with
  | nil => simp [insertSorted]
  | cons y ys ih =>
    rw [insertSorted]
    rcases List.pairwise_cons.mp hl with ⟨hy, hys⟩
    split_ifs with hx
    · refine List.pairwise_cons.mpr ⟨?_, hl⟩
      intro z hz
      rcases List.mem_cons.mp hz with rfl | hz
      · exact hx
      · exact htrans x y z hx (hy z hz)
    · refine List.pairwise_cons.mpr ⟨?_, ih hys⟩
      intro z hz
      have hz' := (insertSorted_perm le x ys).mem_iff.mp hz
      rcases List.mem_cons.mp hz' with rfl | hz''
      · rcases htot y z with h | h
        · exact h
        · rw [h] at hx; exact absurd hx (by simp)
      · exact hy z hz''

theorem stableSort_pairwise {α : Type} (le : α → α → Bool)
    (htot : ∀ a b, le a b = true ∨ le b a = true)
    (htrans : ∀ a b c, le a b = true → le b c = true → le a c = true)
    (l : List α) :
    (stableSort le l).Pairwise (fun a b => le a b = true) := by
  induction l with
  | nil => simp [stableSort]
  | cons x xs ih => exact insertSorted_pairwise le htot htrans x (stableSort le xs) ih

/-- In a `Pairwise R` list, the last element is reachable from every
earlier one. -/
theorem pairwise_getLast {α : Type} {R : α → α → Prop} {l : List α} {r : α}
    (hp : l.Pairwise R) (hr : l.getLast? = some r) :
    ∀ x ∈ l, x = r ∨ R x r := by
  induction l with
  | nil => simp at hr
  | cons a t ih =>
    cases t with
    | nil =>
      simp [List.getLast?] at hr
      intro x hx
      rcases List.mem_cons.mp hx with rfl | hx
      · exact Or.inl hr
      · simp at hx
    | cons b t2 =>
      rw [List.getLast?_cons_cons] at hr
      rcases List.pairwise_cons.mp hp with ⟨ha, ht⟩
      intro x hx
      rcases List.mem_cons.mp hx with rfl | hx
      · have hrmem : r ∈ b :: t2 := by
          have hlast : (b :: t2).getLast? = some r := hr
          rw [List.getLast?_eq_getLast _ (by simp), Option.some_inj] at hlast
          rw [← hlast]
          exact List.getLast_mem _
        exact Or.inr (ha r hrmem)
      · exact ih ht hr x hx

theorem versionDataCmp_eq_iff (a b : VersionData) :
    versionDataCmp a b = .eq ↔
      (a.major = b.major ∧ a.minor = b.minor ∧ a.security = b.security ∧ a.build = b.build) := by
  rw [versionDataCmp_eq_lex, versionDataLex_eq_key, strict_cmpVersionDataKey.1]
  simp [versionDataKey, Prod.ext_iff]

theorem versionDataCmp_swap (a b : VersionData) :
    (versionDataCmp a b).swap = versionDataCmp b a := by
  rw [versionDataCmp_eq_lex, versionDataCmp_eq_lex, versionDataLex_eq_key,
    versionDataLex_eq_key]
  exact strict_cmpVersionDataKey.2.1 _ _

theorem versionDataCmp_lt_trans (a b c : VersionData)
    (h₁ : versionDataCmp a b = .lt) (h₂ : versionDataCmp b c = .lt) :
    versionDataCmp a c = .lt := by
  rw [versionDataCmp_eq_lex, versionDataLex_eq_key] at h₁ h₂ ⊢
  exact strict_cmpVersionDataKey.2.2 _ _ _ h₁ h₂

theorem versionDataCmp_refl (a : VersionData) : versionDataCmp a a = .eq := by
  rw [versionDataCmp_eq_iff]
  exact ⟨rfl, rfl, rfl, rfl⟩

theorem versionDataCmp_key_congr (a b c : VersionData)
    (h : versionDataCmp a b = .eq) : versionDataCmp a c = versionDataCmp b c := by
  rw [versionDataCmp_eq_lex, versionDataLex_eq_key] at h ⊢
  rw [versionDataCmp_eq_lex, versionDataLex_eq_key]
  rw [strict_cmpVersionDataKey.1] at h
  rw [h]

theorem vendorReleaseLe_total (a b : VendorRelease) :
    vendorReleaseLe a b = true ∨ vendorReleaseLe b a = true := by
  unfold vendorReleaseLe
  cases h : versionDataCmp a.version_data b.version_data
  · left; rfl
  · left; rfl
  · right
    have := versionDataCmp_swap a.version_data b.version_data
    rw [h] at this
    rw [← this]
    rfl

theorem vendorReleaseLe_trans (a b c : VendorRelease)
    (h₁ : vendorReleaseLe a b = true) (h₂ : vendorReleaseLe b c = true) :
    vendorReleaseLe a c = true := by
  unfold vendorReleaseLe at h₁ h₂ ⊢
  cases hab : versionDataCmp a.version_data b.version_data with
  | gt => rw [hab] at h₁; simp at h₁
  | eq =>
    rw [versionDataCmp_key_congr _ _ c.version_data hab]
    exact h₂
  | lt =>
    cases hbc : versionDataCmp b.version_data c.version_data with
    | gt => rw [hbc] at h₂; simp at h₂
    | eq =>
      have hk := versionDataCmp_key_congr b.version_data c.version_data a.version_data hbc
      have hswap := (versionDataCmp_swap a.version_data b.version_data)
      rw [hab] at hswap
      have hswap2 := (versionDataCmp_swap a.version_data c.version_data)
      rw [← hk, ← hswap] at hswap2
      have : versionDataCmp a.version_data c.version_data = .lt := by
        cases hac : versionDataCmp a.version_data c.version_data <;>
          rw [hac] at hswap2 <;> (first | rfl | simp [Ordering.swap] at hswap2)
      rw [this]
    | lt =>
      rw [versionDataCmp_lt_trans _ _ _ hab hbc]

theorem vendorReleaseLe_refl (a : VendorRelease) : vendorReleaseLe a a = true := by
  unfold vendorReleaseLe
  rw [versionDataCmp_refl]

/-- The last element of a list, when it exists, is a member. -/
theorem getLast?_mem {α : Type} {l : List α} {r : α} (h : l.getLast? = some r) :
    r ∈ l := by
  induction l with
  | nil => simp at h
  | cons a t ih =>
    cases t with
    | nil =>
      simp [List.getLast?] at h
      simp [h]
    | cons b t2 =>
      rw [List.getLast?_cons_cons] at h
      exact List.mem_cons_of_mem a (ih h)

theorem stableSort_getLast_max (page : List VendorRelease) (r : VendorRelease)
    (h : (stableSort vendorReleaseLe page).getLast? = some r) :
    r ∈ page ∧ ∀ x ∈ page, vendorReleaseLe x r = true := by
  have hperm := stableSort_perm vendorReleaseLe page
  have hsorted := stableSort_pairwise vendorReleaseLe vendorReleaseLe_total
    vendorReleaseLe_trans page
  constructor
  · exact hperm.mem_iff.mp (getLast?_mem h)
  · intro x hx
    have hx' : x ∈ stableSort vendorReleaseLe page := hperm.mem_iff.mpr hx
    rcases pairwise_getLast hsorted h x hx' with rfl | hle
    · exact vendorReleaseLe_refl x
    · exact hle

theorem lookupA_insertA_self {κ α : Type} [DecidableEq κ]
    (m : List (κ × α)) (k : κ) (v : α) : lookupA (insertA m k v) k = some v := by
  induction m with
  | nil => simp [insertA, lookupA]
  | cons p rest ih =>
    obtain ⟨k', v'⟩ := p
    rw [insertA]
    split_ifs with h
    · simp [lookupA]
    · rw [lookupA]
      split_ifs
      exact ih

theorem lookupA_insertA_other {κ α : Type} [DecidableEq κ]
    (m : List (κ × α)) (k k' : κ) (v : α) (h : k ≠ k') :
    lookupA (insertA m k v) k' = lookupA m k' := by
  induction m with
  | nil => simp [insertA, lookupA, h]
  | cons p rest ih =>
    obtain ⟨k₀, v₀⟩ := p
    rw [insertA]
    split_ifs with h₀
    · subst h₀
      rw [lookupA, lookupA]
      split_ifs with h₁
      · exact absurd h₁ h
      · rfl
    · rw [lookupA, lookupA]
      split_ifs with h₁
      · rfl
      · exact ih

theorem containsA_insertA_self {κ α : Type} [DecidableEq κ]
    (m : List (κ × α)) (k : κ) (v : α) : containsA (insertA m k v) k = true := by
  rw [containsA, lookupA_insertA_self]
  rfl

theorem containsA_insertA_mono {κ α : Type} [DecidableEq κ]
    (m : List (κ × α)) (k k' : κ) (v : α) (h : containsA m k' = true) :
    containsA (insertA m k v) k' = true := by
  by_cases hk : k = k'
  · subst hk; exact containsA_insertA_self m k v
  · rw [containsA, lookupA_insertA_other m k k' v hk]
    exact h

theorem lookupA_mem {κ α : Type} [DecidableEq κ]
    {m : List (κ × α)} {k : κ} {v : α} (h : lookupA m k = some v) : (k, v) ∈ m := by
  induction m with
  | nil => simp [lookupA] at h
  | cons p rest ih =>
    obtain ⟨k', v'⟩ := p
    rw [lookupA] at h
    split_ifs at h with hk
    · subst hk
      simp at h
      simp [h]
    · exact List.mem_cons_of_mem _ (ih h)

theorem gaLoop_trace_entries (fetch : Nat → String → Except Err VendorRelease) :
    ∀ (l : List Nat) (out : List (Nat × VendorRelease)) (tr : List (Nat × String)),
      ∀ p ∈ (gaLoop fetch l out tr).2, p ∈ tr ∨ p.2 = "ga" := by
  intro l
  induction l with
  | nil => intro out tr p hp; exact Or.inl hp
  | cons v rest ih =>
    intro out tr p hp
    rw [gaLoop] at hp
    cases hf : fetch v "ga" with
    | ok r =>
      rw [hf] at hp
      rcases ih (insertA out v r) (tr ++ [(v, "ga")]) p hp with h | h
      · rcases List.mem_append.mp h with h' | h'
        · exact Or.inl h'
        · simp at h'
          right
          rw [h']
      · exact Or.inr h
    | error e =>
      rw [hf] at hp
      simp at hp
      rcases hp with h' | h'
      · exact Or.inl h'
      · right
        rw [h']

theorem gaLoop_trace_mono (fetch : Nat → String → Except Err VendorRelease) :
    ∀ (l : List Nat) (out : List (Nat × VendorRelease)) (tr : List (Nat × String)),
      ∀ p ∈ tr, p ∈ (gaLoop fetch l out tr).2 := by
  intro l
  induction l with
  | nil => intro out tr p hp; exact hp
  | cons v rest ih =>
    intro out tr p hp
    rw [gaLoop]
    cases hf : fetch v "ga" with
    | ok r => exact ih _ _ p (List.mem_append.mpr (Or.inl hp))
    | error e =>
      simp
      exact Or.inl hp

theorem gaLoop_ok_contains (fetch : Nat → String → Except Err VendorRelease) :
    ∀ (l : List Nat) (out : List (Nat × VendorRelease)) (tr : List (Nat × String))
      (out' : List (Nat × VendorRelease)) (tr' : List (Nat × String)),
      gaLoop fetch l out tr = (.ok out', tr') →
      ∀ v, (v ∈ l ∨ containsA out v = true) → containsA out' v = true := by
  intro l
  induction l with
  | nil =>
    intro out tr out' tr' h v hv
    rw [gaLoop] at h
    simp at h
    obtain ⟨h₁, h₂⟩ := h
    rcases hv with hv | hv
    · simp at hv
    · rw [← h₁]
      exact hv
  | cons w rest ih =>
    intro out tr out' tr' h v hv
    rw [gaLoop] at h
    cases hf : fetch w "ga" with
    | ok r =>
      rw [hf] at h
      refine ih _ _ _ _ h v ?_
      rcases hv with hv | hv
      · rcases List.mem_cons.mp hv with rfl | hv'
        · exact Or.inr (containsA_insertA_self out v r)
        · exact Or.inl hv'
      · exact Or.inr (containsA_insertA_mono out w v r hv)
    | error e =>
      rw [hf] at h
      simp at h

theorem gaLoop_ok_trace (fetch : Nat → String → Except Err VendorRelease) :
    ∀ (l : List Nat) (out : List (Nat × VendorRelease)) (tr : List (Nat × String)),
      ∀ v ∈ l, (v, "ga") ∈ (gaLoop fetch l out tr).2 ∨
        (gaLoop fetch l out tr).1.isOk = false := by
  intro l
  induction l with
  | nil => intro out tr v hv; simp at hv
  | cons w rest ih =>
    intro out tr v hv
    rw [gaLoop]
    cases hf : fetch w "ga" with
    | ok r =>
      rcases List.mem_cons.mp hv with rfl | hv'
      · exact Or.inl (gaLoop_trace_mono fetch rest _ _ (v, "ga")
          (List.mem_append.mpr (Or.inr (by simp))))
      · exact ih _ _ v hv'
    | error e =>
      right
      simp [Except.isOk, Except.toBool]

/-- Traversing a prefix of successfully-fetched versions reduces the GA
loop to the loop on the remaining suffix. -/
theorem gaLoop_append_ok (fetch : Nat → String → Except Err VendorRelease) :
    ∀ (pre rest : List Nat) (out : List (Nat × VendorRelease)) (tr : List (Nat × String)),
      (∀ u ∈ pre, ∃ r, fetch u "ga" = .ok r) →
      ∃ out' tr', gaLoop fetch (pre ++ rest) out tr = gaLoop fetch rest out' tr' := by
  intro pre
  induction pre with
  | nil => intro rest out tr _; exact ⟨out, tr, rfl⟩
  | cons u us ih =>
    intro rest out tr hok
    obtain ⟨r, hr⟩ := hok u (by simp)
    rw [List.cons_append, gaLoop, hr]
    exact ih rest _ _ (fun w hw => hok w (List.mem_cons_of_mem u hw))

theorem vendorReleaseLe_iff (a b : VendorRelease) :
    vendorReleaseLe a b = true ↔ versionDataCmp a.version_data b.version_data ≠ .gt := by
  unfold vendorReleaseLe
  cases versionDataCmp a.version_data b.version_data <;> simp

theorem releaseCmp_eq_lex (a b : Release) : releaseCmp a b = releaseLex a b := by
  rw [releaseCmp, releaseCmpOpt_eq_lex]
  rfl

theorem releaseCmp_eq_iff (a b : Release) :
    releaseCmp a b = .eq ↔
      (a.build = b.build ∧ a.major = b.major ∧ a.minor = b.minor
        ∧ a.openjdk_version = b.openjdk_version ∧ a.security = b.security) := by
  rw [releaseCmp_eq_lex, releaseLex_eq_key, strict_cmpReleaseKey.1]
  simp [releaseKey, Prod.ext_iff]

theorem releaseCmp_swap (a b : Release) :
    (releaseCmp a b).swap = releaseCmp b a := by
  rw [releaseCmp_eq_lex, releaseCmp_eq_lex, releaseLex_eq_key, releaseLex_eq_key]
  exact strict_cmpReleaseKey.2.1 _ _

theorem releaseCmp_lt_trans (a b c : Release)
    (h₁ : releaseCmp a b = .lt) (h₂ : releaseCmp b c = .lt) : releaseCmp a c = .lt := by
  rw [releaseCmp_eq_lex, releaseLex_eq_key] at h₁ h₂ ⊢
  exact strict_cmpReleaseKey.2.2 _ _ _ h₁ h₂

/-- When two orderings are `swap`s of each other, one is `lt` exactly when
the other is `gt`. -/
theorem swap_lt_iff_gt {o₁ o₂ : Ordering} (h : o₁.swap = o₂) :
    o₁ = .lt ↔ o₂ = .gt := by
  rw [← h]
  cases o₁ <;> simp [Ordering.swap]

/-- Claim C1, counterexample: the claim states that both comparators
compare major, then minor, then security, then build, and only then the
qualifier segments.  The legacy comparator instead compares the build
first: on `relBuild2Major1` (major 1, build 2) versus `relBuild1Major2`
(major 2, build 1) it answers `Greater` while the claimed algorithm
answers `Less`.  The vendor comparator never consults the qualifier: on
`vdPlain` versus `vdBeta` (equal numerics, different qualifiers) it
answers `Equal` while the claimed algorithm answers `Less`. -/
theorem c1_counterexample :
    releaseCmpOpt relBuild2Major1 relBuild1Major2 = some .gt
    ∧ specReleaseCmp relBuild2Major1 relBuild1Major2 = .lt
    ∧ versionDataCmp vdPlain vdBeta = .eq
    ∧ specVersionCmp vdPlain vdBeta = .lt := by
  refine ⟨by decide, by decide, by decide, by decide⟩

/-- Claim C1, amended: the vendor comparator (adoptium.rs `VersionData`)
compares major, then minor, then security, then build, numerically, and
returns `Equal` when all four agree, with no qualifier tie-break; the
legacy comparator (main.rs `Release`) compares build, then major, then
minor, then the whole `openjdk_version` string, then security
(`versionDataLex` and `releaseLex` spell out those two lexicographic
orders). -/
theorem c1_amended :
    (∀ a b : VersionData, versionDataCmpOpt a b = some (versionDataLex a b))
    ∧ (∀ a b : Release, releaseCmpOpt a b = some (releaseLex a b)) :=
  ⟨versionDataCmpOpt_eq_lex, releaseCmpOpt_eq_lex⟩

/-- Claim C10: in the legacy comparator the hyphen-split qualifier branch
is unreachable (it is guarded by the same string comparison having just
returned `Equal`), so the comparator always returns `some` of the plain
lexicographic comparison of (build, major, minor, openjdk_version,
security) and never returns `None`. -/
theorem c10_legacy_lex :
    ∀ a b : Release, releaseCmpOpt a b = some (releaseLex a b) :=
  releaseCmpOpt_eq_lex

/-- Claim C4, counterexample: the claim states the comparator returns
`Equal` only if all five components (including the qualifier) are equal;
the vendor comparator returns `Equal` on `vdPlain` and `vdBeta`, whose
qualifier strings differ. -/
theorem c4_counterexample :
    versionDataCmp vdPlain vdBeta = .eq
    ∧ vdPlain.openjdk_version ≠ vdBeta.openjdk_version := by
  refine ⟨by decide, by decide⟩

/-- Claim C4, amended: both comparators are total (exactly one ordering
is returned), dualize under argument swap, and are transitive; the legacy
comparator returns `Equal` only if build, major, minor, the qualifier
string and security are all equal, but the vendor comparator returns
`Equal` exactly when the four numeric components are equal — the
qualifier is not consulted. -/
theorem c4_amended :
    (∀ a b : VersionData,
      (versionDataCmp a b = .lt ∨ versionDataCmp a b = .eq ∨ versionDataCmp a b = .gt)
      ∧ (versionDataCmp a b = .lt ↔ versionDataCmp b a = .gt)
      ∧ (versionDataCmp a b = .eq ↔
          a.major = b.major ∧ a.minor = b.minor ∧ a.security = b.security
            ∧ a.build = b.build))
    ∧ (∀ a b c : VersionData, versionDataCmp a b = .lt → versionDataCmp b c = .lt →
        versionDataCmp a c = .lt)
    ∧ (∀ a b : Release,
      (releaseCmp a b = .lt ∨ releaseCmp a b = .eq ∨ releaseCmp a b = .gt)
      ∧ (releaseCmp a b = .lt ↔ releaseCmp b a = .gt)
      ∧ (releaseCmp a b = .eq ↔
          a.build = b.build ∧ a.major = b.major ∧ a.minor = b.minor
            ∧ a.openjdk_version = b.openjdk_version ∧ a.security = b.security))
    ∧ (∀ a b c : Release, releaseCmp a b = .lt → releaseCmp b c = .lt →
        releaseCmp a c = .lt) := by
  refine ⟨fun a b => ⟨?_, ?_, versionDataCmp_eq_iff a b⟩,
    versionDataCmp_lt_trans,
    fun a b => ⟨?_, ?_, releaseCmp_eq_iff a b⟩,
    releaseCmp_lt_trans⟩
  · cases versionDataCmp a b
    · exact Or.inl rfl
    · exact Or.inr (Or.inl rfl)
    · exact Or.inr (Or.inr rfl)
  · exact swap_lt_iff_gt (versionDataCmp_swap a b)
  · cases releaseCmp a b
    · exact Or.inl rfl
    · exact Or.inr (Or.inl rfl)
    · exact Or.inr (Or.inr rfl)
  · exact swap_lt_iff_gt (releaseCmp_swap a b)

/-- Witness for `c4_amended`: its transitivity part applied at versions
with majors 17 < 18 < 21. -/
theorem c4_amended_witness :
    versionDataCmp vdPlain { vdBeta with major := 21 } = .lt :=
  c4_amended.2.1 vdPlain { vdBeta with major := 18 } { vdBeta with major := 21 }
    (by decide) (by decide)

/-- Claim C2, counterexample: the claim states `get_release` returns the
maximum of the page under VersionOrdering (which, per the spec's words,
tie-breaks on the qualifier).  On the page `[vrBeta, vrPlain]` — two
candidates with equal numeric components — the code's stable sort keeps
the page order and pops `vrPlain`, although `vrBeta` is strictly greater
under the spec's VersionOrdering. -/
theorem c2_counterexample :
    adoptiumGetRelease [vrBeta, vrPlain] = .ok vrPlain
    ∧ vrBeta ∈ [vrBeta, vrPlain]
    ∧ specVersionCmp vrPlain.version_data vrBeta.version_data = .lt := by
  refine ⟨by decide, by decide, by decide⟩

/-- Claim C2, amended: for every page, `get_release` (both vendors)
returns an element of the page that is maximal under the comparator the
code actually sorts with (the `VersionData` ordering — no page element is
strictly greater, ties being broken toward the later page position), and
on an empty page it fails with the vendor's no-candidates error, never
returning a default or zero value. -/
theorem c2_amended :
    (∀ (page : List VendorRelease) (r : VendorRelease),
      adoptiumGetRelease page = .ok r →
        r ∈ page ∧ ∀ x ∈ page, versionDataCmp x.version_data r.version_data ≠ .gt)
    ∧ (∀ (page : List VendorRelease) (r : VendorRelease),
      semeruGetRelease page = .ok r →
        r ∈ page ∧ ∀ x ∈ page, versionDataCmp x.version_data r.version_data ≠ .gt)
    ∧ adoptiumGetRelease [] = .error (.msg "Adoptium endpoint did not return any valid releases")
    ∧ semeruGetRelease [] = .error (.msg "Semeru endpoint did not return any valid releases") := by
  have hmax : ∀ (page : List VendorRelease) (r : VendorRelease),
      (stableSort vendorReleaseLe page).getLast? = some r →
      r ∈ page ∧ ∀ x ∈ page, versionDataCmp x.version_data r.version_data ≠ .gt := by
    intro page r h
    obtain ⟨hmem, hle⟩ := stableSort_getLast_max page r h
    exact ⟨hmem, fun x hx => (vendorReleaseLe_iff x r).mp (hle x hx)⟩
  refine ⟨fun page r h => ?_, fun page r h => ?_, rfl, rfl⟩
  · rw [adoptiumGetRelease] at h
    cases hl : (stableSort vendorReleaseLe page).getLast? with
    | some q =>
      rw [hl] at h
      injection h with h
      rw [← h]
      exact hmax page q hl
    | none => rw [hl] at h; cases h
  · rw [semeruGetRelease] at h
    cases hl : (stableSort vendorReleaseLe page).getLast? with
    | some q =>
      rw [hl] at h
      injection h with h
      rw [← h]
      exact hmax page q hl
    | none => rw [hl] at h; cases h

/-- Witness for `c2_amended`: applied to the singleton page `[vrPlain]`. -/
theorem c2_amended_witness :
    vrPlain ∈ [vrPlain]
    ∧ versionDataCmp vrPlain.version_data vrPlain.version_data ≠ .gt := by
  have h := c2_amended.1 [vrPlain] vrPlain (by decide)
  exact ⟨h.1, h.2 vrPlain h.1⟩

/-- Claim C3: once the GA loop has resolved the summary's listed versions
into `out`, both vendors attempt an EA fetch for the summary's most
recent feature version exactly when that version is not already a key of
`out` (the EA call appears in the fetch trace precisely in that case);
and when that EA fetch fails, the failure is fatal for adoptium — the
whole build returns the error, wrapped in the version's context — but
non-fatal for semeru, which returns the mapping without that entry. -/
theorem c3_ea_policy (available : AvailableReleases)
    (fetch : Nat → String → Except Err VendorRelease)
    (out : List (Nat × VendorRelease)) (tr : List (Nat × String))
    (hga : gaLoop fetch available.available_releases [] [] = (.ok out, tr)) :
    (((available.most_recent_feature_version, "ea") ∈
        (adoptiumGetReleases available fetch).2) ↔
      containsA out available.most_recent_feature_version = false)
    ∧ (((available.most_recent_feature_version, "ea") ∈
        (semeruGetReleases available fetch).2) ↔
      containsA out available.most_recent_feature_version = false)
    ∧ (∀ e, containsA out available.most_recent_feature_version = false →
        fetch available.most_recent_feature_version "ea" = .error e →
        (adoptiumGetReleases available fetch).1 =
          .error (.context (adoptiumEaMsg available.most_recent_feature_version) e)
        ∧ (semeruGetReleases available fetch).1 = .ok out) := by
  have hga_tr : ∀ p ∈ tr, p.2 = "ga" := by
    intro p hp
    have hmem : p ∈ (gaLoop fetch available.available_releases [] []).2 := by
      rw [hga]
      exact hp
    rcases gaLoop_trace_entries fetch available.available_releases [] [] p hmem with h | h
    · simp at h
    · exact h
  have hnot_ea : (available.most_recent_feature_version, "ea") ∉ tr := by
    intro hmem
    have := hga_tr _ hmem
    simp at this
  unfold adoptiumGetReleases semeruGetReleases
  rw [hga]
  by_cases hc : containsA out available.most_recent_feature_version = true
  · simp only [hc, if_true]
    refine ⟨?_, ?_, ?_⟩
    · constructor
      · intro hmem; exact absurd hmem hnot_ea
      · intro h; exact Bool.noConfusion h
    · constructor
      · intro hmem; exact absurd hmem hnot_ea
      · intro h; exact Bool.noConfusion h
    · intro e hfalse _
      exact absurd hfalse (by simp [hc])
  · have hc' : containsA out available.most_recent_feature_version = false := by
      cases h : containsA out available.most_recent_feature_version
      · rfl
      · exact absurd h hc
    simp only [hc', Bool.false_eq_true, if_false]
    cases hf : fetch available.most_recent_feature_version "ea" with
    | ok r =>
      refine ⟨?_, ?_, ?_⟩
      · simp [hc']
      · simp [hc']
      · intro e _ he
        exact Except.noConfusion he
    | error e' =>
      refine ⟨?_, ?_, ?_⟩
      · simp [hc']
      · simp [hc']
      · intro e _ he
        injection he with he
        rw [← he]
        exact ⟨rfl, rfl⟩

/-- Witness for `c3_ea_policy`: for the summary `availEaGap` (version 21
advertised as most recent but absent from the GA list `[17]`) and a
fetcher with no EA builds, adoptium fails with the wrapped context error
while semeru returns the GA-only mapping. -/
theorem c3_ea_policy_witness :
    (adoptiumGetReleases availEaGap fetchGaOnly).1 =
      .error (.context (adoptiumEaMsg 21) (.msg "no ea build"))
    ∧ (semeruGetReleases availEaGap fetchGaOnly).1 = .ok [(17, vrPlain)] :=
  (c3_ea_policy availEaGap fetchGaOnly [(17, vrPlain)] [(17, "ga")]
      (by decide)).2.2 (.msg "no ea build") (by decide) (by decide)

/-- Claim C5, counterexample: the claim states that no advertised version
is ever silently skipped and that any failure to resolve a listed version
is fatal.  In the legacy path (main.rs `main`, `if let Ok(url) = ...`),
a version whose asset lookup fails is silently dropped: with the URL
collaborator failing for `relMinor1`, the run still succeeds and emits a
catalog that only contains the entry derived from `relMinor0`. -/
theorem c5_counterexample :
    urlSkips relMinor1 = .error (.msg "404")
    ∧ legacyMain urlSkips [relMinor0, relMinor1] =
        [("x86_64-unknown-linux-gnu",
          ⟨[("17", ⟨"17", "17.0.0+1", "u1"⟩)]⟩)] := by
  refine ⟨by decide, by decide⟩

/-- Claim C5, amended: in the vendor catalog builders the claim holds —
whenever adoptium's `get_releases` succeeds, every version listed in the
summary has been GA-fetched (it appears in the trace) and is a key of the
resulting mapping; and if the GA fetch of a listed version fails after
the versions before it succeeded, the whole build fails with that error
wrapped in a context naming the offending version, so no partial catalog
is returned.  (In the legacy path, by contrast, a version whose asset
lookup fails is silently skipped; see the counterexample.) -/
theorem c5_amended (available : AvailableReleases)
    (fetch : Nat → String → Except Err VendorRelease) :
    (∀ out tr, adoptiumGetReleases available fetch = (.ok out, tr) →
      ∀ v ∈ available.available_releases, containsA out v = true ∧ (v, "ga") ∈ tr)
    ∧ (∀ (pre : List Nat) (v : Nat) (post : List Nat) (e : Err),
        available.available_releases = pre ++ v :: post →
        (∀ u ∈ pre, ∃ r, fetch u "ga" = .ok r) →
        fetch v "ga" = .error e →
        (adoptiumGetReleases available fetch).1 =
          .error (.context (adoptiumGaMsg v) e)) := by
  constructor
  · intro out tr h v hv
    rw [adoptiumGetReleases] at h
    cases hga : gaLoop fetch available.available_releases [] [] with
    | mk res tr₀ =>
      rw [hga] at h
      cases res with
      | error p =>
        obtain ⟨w, e⟩ := p
        exact Except.noConfusion (congrArg Prod.fst h)
      | ok out₀ =>
        dsimp only at h
        have hcontains : containsA out₀ v = true :=
          gaLoop_ok_contains fetch available.available_releases [] [] out₀ tr₀ hga v
            (Or.inl hv)
        have htrace : (v, "ga") ∈ tr₀ := by
          rcases gaLoop_ok_trace fetch available.available_releases [] [] v hv with ht | ht
          · rw [hga] at ht; exact ht
          · rw [hga] at ht; exact Bool.noConfusion ht
        by_cases hc : containsA out₀ available.most_recent_feature_version = true
        · rw [if_pos hc] at h
          injection h with h₁ h₂
          injection h₁ with h₁
          rw [← h₁, ← h₂]
          exact ⟨hcontains, htrace⟩
        · rw [if_neg hc] at h
          cases hf : fetch available.most_recent_feature_version "ea" with
          | ok r =>
            rw [hf] at h
            injection h with h₁ h₂
            injection h₁ with h₁
            rw [← h₁, ← h₂]
            refine ⟨containsA_insertA_mono _ _ _ _ hcontains, ?_⟩
            exact List.mem_append.mpr (Or.inl htrace)
          | error e =>
            rw [hf] at h
            exact Except.noConfusion (congrArg Prod.fst h)
  · intro pre v post e hlist hok hv
    obtain ⟨out', tr', heq⟩ :=
      gaLoop_append_ok fetch pre (v :: post) ([] : List (Nat × VendorRelease)) [] hok
    rw [adoptiumGetReleases, hlist, heq, gaLoop, hv]

/-- Witness for `c5_amended`: with every fetch failing, resolving the
summary `availEaGap` (which lists version 17) fails with the GA context
error naming version 17. -/
theorem c5_amended_witness :
    (adoptiumGetReleases availEaGap fetchDown).1 =
      .error (.context (adoptiumGaMsg 17) (.msg "down")) :=
  (c5_amended availEaGap fetchDown).2 [] 17 [] (.msg "down") rfl (by simp) (by decide)

/-- Claim C6: the claim states the emitted catalog is a deterministic
function of the fetched releases, independent of iteration order over the
intermediate hash maps.  The code violates this: `relMinor0` and
`relMinor1` (same major 17, different minors, hence distinct slugs) both
insert under the `Sources` key "17", so the two `HashSet`/`HashMap`
iteration orders of the same two fetched releases produce different
catalogs — whichever slug is iterated last wins. -/
theorem c6_order_dependent :
    ([relMinor0, relMinor1] : List Release).Perm [relMinor1, relMinor0]
    ∧ legacyMain urlOk [relMinor0, relMinor1] ≠ legacyMain urlOk [relMinor1, relMinor0] := by
  refine ⟨by decide, by decide⟩

/-- Claim C7 (the catalog assembler is modelled from the spec, being
absent from `src/`): when assembly succeeds, each of the `latest`,
`stable` and `lts` pointers equals an entry that is also present in the
`versions` map (under the slug of its numeric key); and when any of the
three pointer targets is not among the resolved versions, assembly fails
with a `MissingPointerError` instead of emitting a catalog with the field
omitted. -/
theorem c7_pointers :
    (∀ (catalog : List (Nat × ResolvedRelease)) (summary : AvailableReleases)
        (pc : PublishedCatalog), assemble catalog summary = .ok pc →
      ("jdk" ++ toString summary.most_recent_feature_version, pc.latest) ∈ pc.versions
      ∧ ("jdk" ++ toString summary.most_recent_feature_release, pc.stable) ∈ pc.versions
      ∧ ("jdk" ++ toString (maxLts summary), pc.lts) ∈ pc.versions)
    ∧ (∀ (catalog : List (Nat × ResolvedRelease)) (summary : AvailableReleases),
        (lookupA catalog summary.most_recent_feature_version = none
         ∨ lookupA catalog summary.most_recent_feature_release = none
         ∨ lookupA catalog (maxLts summary) = none) →
        isMissingPointer (assemble catalog summary) = true) := by
  constructor
  · intro catalog summary pc h
    rw [assemble] at h
    cases h₁ : lookupA catalog summary.most_recent_feature_version with
    | none => rw [h₁] at h; exact Except.noConfusion h
    | some latest =>
      rw [h₁] at h
      cases h₂ : lookupA catalog summary.most_recent_feature_release with
      | none => rw [h₂] at h; exact Except.noConfusion h
      | some stable =>
        rw [h₂] at h
        cases h₃ : lookupA catalog (maxLts summary) with
        | none => rw [h₃] at h; exact Except.noConfusion h
        | some lts =>
          rw [h₃] at h
          injection h with h
          rw [← h]
          refine ⟨?_, ?_, ?_⟩
          · exact List.mem_map_of_mem _ (lookupA_mem h₁)
          · exact List.mem_map_of_mem _ (lookupA_mem h₂)
          · exact List.mem_map_of_mem _ (lookupA_mem h₃)
  · intro catalog summary hmiss
    cases h₁ : lookupA catalog summary.most_recent_feature_version <;>
      cases h₂ : lookupA catalog summary.most_recent_feature_release <;>
        cases h₃ : lookupA catalog (maxLts summary) <;>
          simp_all [assemble, isMissingPointer]

/-- Witness for `c7_pointers`: the singleton catalog resolving version 17
with the summary pointing latest, stable and lts at 17 assembles into a
catalog whose three pointers all sit in `versions` under slug "jdk17";
and against the empty catalog the same summary yields a
`MissingPointerError`. -/
theorem c7_pointers_witness :
    ("jdk" ++ toString summaryAll17.most_recent_feature_version, rrW) ∈
      [("jdk17", rrW)]
    ∧ isMissingPointer (assemble [] summaryAll17) = true := by
  constructor
  · exact (c7_pointers.1 [(17, rrW)] summaryAll17
      { versions := [("jdk17", rrW)], latest := rrW, stable := rrW, lts := rrW }
      (by decide)).1
  · exact c7_pointers.2 [] summaryAll17 (Or.inl rfl)

/-- Claim C8, counterexample: the claim states that more than one binary
matching the platform filter is reported as an error, never resolved by
silently picking one.  main.rs `get_url` does the opposite: on a response
whose first `VersionInfo` carries two binaries it succeeds with the first
binary's link. -/
theorem c8_counterexample :
    getUrlFromResponse [⟨[⟨⟨"link1", "n1"⟩⟩, ⟨⟨"link2", "n2"⟩⟩]⟩] = .ok "link1" := by
  decide

/-- Claim C8, amended: zero matching binaries is indeed an error (as is a
response with no version info at all), but when one or more binaries are
present the first one's link is returned, silently picking it among
several. -/
theorem c8_amended :
    (∀ rest : List VersionInfo,
      getUrlFromResponse ({ binaries := [] } :: rest) = .error (.msg "Binary was missing!"))
    ∧ (∀ (b : BinaryInfo) (bs : List BinaryInfo) (rest : List VersionInfo),
      getUrlFromResponse ({ binaries := b :: bs } :: rest) = .ok b.package.link)
    ∧ getUrlFromResponse [] = .error (.msg "Nothing providred") :=
  ⟨fun _ => rfl, fun _ _ _ => rfl, rfl⟩

/-- Claim C9, counterexample: the claim states the coarse-slug merge
retains the candidate that is greater under VersionOrdering.  With
`relSec1Build10` (security 1, build 10) and `relSec2Build9` (security 2,
build 9) on the same slug "1.17.0", the merge keeps `relSec1Build10`
(the legacy comparator puts build first), although `relSec2Build9` is
strictly greater under the spec's VersionOrdering (security first). -/
theorem c9_counterexample :
    buildSlugs urlOk [relSec1Build10, relSec2Build9] [] =
      [("1.17.0", relSec1Build10, "u")]
    ∧ toSlug relSec1Build10 = toSlug relSec2Build9
    ∧ specReleaseCmp relSec1Build10 relSec2Build9 = .lt := by
  refine ⟨by decide, by decide, by decide⟩

/-- Claim C9, amended: when two resolved candidates map to the same
coarse slug, the merged map retains exactly the one that is greater under
the legacy `Release` comparator (the second candidate replaces the first
exactly when it is strictly greater; in particular, for two candidates on
slug "1.17.0" with builds 9 and 10 and equal remaining fields, only the
build-10 entry survives); and candidates with distinct coarse slugs are
kept as separate entries, never merged with each other. -/
theorem c9_amended :
    (∀ (g : Release → Except Err String) (r₁ r₂ : Release) (u₁ u₂ : String),
      g r₁ = .ok u₁ → g r₂ = .ok u₂ → toSlug r₁ = toSlug r₂ →
      (releaseCmpOpt r₂ r₁ = some .gt →
        buildSlugs g [r₁, r₂] [] = [(toSlug r₁, r₂, u₂)])
      ∧ (releaseCmpOpt r₂ r₁ ≠ some .gt →
        buildSlugs g [r₁, r₂] [] = [(toSlug r₁, r₁, u₁)]))
    ∧ (∀ (g : Release → Except Err String) (r₁ r₂ : Release) (u₁ u₂ : String),
      g r₁ = .ok u₁ → g r₂ = .ok u₂ → toSlug r₁ ≠ toSlug r₂ →
      buildSlugs g [r₁, r₂] [] = [(toSlug r₁, r₁, u₁), (toSlug r₂, r₂, u₂)]) := by
  constructor
  · intro g r₁ r₂ u₁ u₂ hg₁ hg₂ hslug
    constructor
    · intro hgt
      have hb : releaseGtB r₂ r₁ = true := by
        rw [releaseGtB, hgt]
        decide
      simp [buildSlugs, hg₁, hg₂, lookupA, ← hslug, hb, insertA]
    · intro hne
      have hb : releaseGtB r₂ r₁ = false := by
        rw [releaseGtB]
        cases hcmp : releaseCmpOpt r₂ r₁ with
        | none => decide
        | some o => cases o <;> (first | decide | simp_all)
      simp [buildSlugs, hg₁, hg₂, lookupA, ← hslug, hb]
  · intro g r₁ r₂ u₁ u₂ hg₁ hg₂ hslug
    simp [buildSlugs, hg₁, hg₂, lookupA, hslug]

/-- Witness for `c9_amended`: the spec's own example, two candidates on
slug "1.17.0" with builds 9 and 10 — only the build-10 entry survives. -/
theorem c9_amended_witness :
    buildSlugs urlOk [relBuild9, relBuild10] [] = [(toSlug relBuild9, relBuild10, "u")] :=
  (c9_amended.1 urlOk relBuild9 relBuild10 "u" "u" rfl rfl rfl).1 (by decide)

end Updater
